import Mathlib

/-!
Verification of the realtime speech chat frontend.

The development shallowly embeds the core functions of the repository:
the resampler and PCM16 encoder of useAudioRecorder.ts, the PCM16 decoder
of useAudioPlayer.ts, the WebSocket transcription-session handlers of
useWebSocketSTT.ts, the transcript dispatch of the application component,
and the serialized conversation controller of useConversation.ts.
Audio samples are modelled as rationals: every float computation the
claims exercise is exact at the inputs considered.
-/

/-- Model of the JavaScript string trim used by the source: drop leading
and trailing whitespace characters. -/
def wsChar (c : Char) : Bool :=
  c == ' ' || c == '\t' || c == '\n' || c == '\r'

def strTrim (s : String) : String :=
  ⟨((s.data.dropWhile wsChar).reverse.dropWhile wsChar).reverse⟩

/-! ## Resampler and PCM16 encoder (useAudioRecorder.ts) -/

/-- Model of clampSample: clamp a float sample into the interval from -1 to 1. -/
def clampSample (value : ℚ) : ℚ := max (-1) (min 1 value)

/-- Truncation toward zero, as performed by DataView.setInt16 on a float. -/
def ratTrunc (q : ℚ) : ℤ := if q < 0 then ⌈q⌉ else ⌊q⌋

/-- The 16-bit integer produced for one sample by convertFloat32ToInt16:
clamp, then scale negatives by 32768 and non-negatives by 32767, truncate. -/
def encodeInt16 (sample : ℚ) : ℤ :=
  let s := clampSample sample
  ratTrunc (if s < 0 then s * 32768 else s * 32767)

/-- Little-endian byte pair of a 16-bit integer, as stored by
DataView.setInt16 with littleEndian true (two-complement wraparound). -/
def int16Bytes (v : ℤ) : List ℕ :=
  let u := (v % 65536).toNat
  [u % 256, u / 256]

/-- Model of convertFloat32ToInt16: the emitted PCM16LE byte buffer. -/
def convertFloat32ToInt16 (samples : List ℚ) : List ℕ :=
  samples.flatMap fun s => int16Bytes (encodeInt16 s)

/-- Result record of the downsample function. -/
structure DownsampleResult where
  downsampled : List ℚ
  leftover : List ℚ
deriving DecidableEq

/-- Average of the window of buffer indices from start (inclusive) to
stop (exclusive), truncated at the end of the buffer; 0 when the window
is empty. This is the body of the averaging loop of downsample. -/
def windowAvg (buffer : List ℚ) (start stop : ℕ) : ℚ :=
  let window := (buffer.drop start).take (stop - start)
  if window.length = 0 then 0 else window.sum / window.length

/-- Model of downsample from useAudioRecorder.ts: box-average decimation
with a carry buffer. Mirrors the source line by line: equal rates pass
the input through with an empty leftover; a target rate above the input
rate throws; otherwise the carry is prepended, floor(length/r) output
samples are produced (r the rate quotient) and the samples beyond the
last consumed window index become the leftover. -/
def downsample (input : List ℚ) (inputSampleRate targetSampleRate : ℕ)
    (carry : List ℚ) : Except String DownsampleResult :=
  if targetSampleRate = inputSampleRate then
    .ok ⟨input, []⟩
  else if inputSampleRate < targetSampleRate then
    .error "Target sample rate must be less than or equal to input sample rate."
  else
    let buffer := carry ++ input
    let rq : ℚ := (inputSampleRate : ℚ) / (targetSampleRate : ℚ)
    let newLength : ℕ := ⌊(buffer.length : ℚ) / rq⌋₊
    let result : List ℚ := (List.range newLength).map fun i : ℕ =>
      windowAvg buffer ⌊(i : ℚ) * rq⌋₊ ⌊((i : ℚ) + 1) * rq⌋₊
    let offset : ℕ := if newLength = 0 then 0 else ⌊(newLength : ℚ) * rq⌋₊
    .ok ⟨result, buffer.drop offset⟩

/-- Incremental driver: feed frames one after the other through
downsample, threading the leftover of each call into the next as carry,
accumulating the number of output samples. Models the worklet onmessage
handler keeping carryBufferRef across calls. -/
def feedFrames (inputSampleRate targetSampleRate : ℕ) :
    List (List ℚ) → List ℚ × ℕ → List ℚ × ℕ
  | [], st => st
  | f :: rest, (carry, acc) =>
    match downsample f inputSampleRate targetSampleRate carry with
    | .ok r => feedFrames inputSampleRate targetSampleRate rest
        (r.leftover, acc + r.downsampled.length)
    | .error _ => (carry, acc)

/-- Total number of samples in a list of frames. -/
def totalSamples (frames : List (List ℚ)) : ℕ := (frames.map List.length).sum

/-! ## PCM16 decoder (useAudioPlayer.ts) -/

/-- Reassemble a signed 16-bit value from a little-endian byte pair, as
the Int16Array view over the received byte buffer does. -/
def bytesToInt16 (lo hi : ℕ) : ℤ :=
  let u := lo % 256 + 256 * (hi % 256)
  if 32768 ≤ u then (u : ℤ) - 65536 else (u : ℤ)

/-- Model of the playback conversion: divide negatives by 32768 and
non-negatives by 32767 (useAudioPlayer.ts line 45). -/
def int16ToFloat (v : ℤ) : ℚ := (v : ℚ) / (if v < 0 then 32768 else 32767)

/-- Group a byte list into consecutive little-endian pairs, as the
Int16Array view does; a trailing odd byte is dropped. -/
def bytePairs : List ℕ → List (ℕ × ℕ)
  | lo :: hi :: rest => (lo, hi) :: bytePairs rest
  | _ => []

/-- Full decoding pipeline of playAudioStream: bytes to 16-bit values to
float samples. -/
def decodePCM16 (bytes : List ℕ) : List ℚ :=
  (bytePairs bytes).map fun p => int16ToFloat (bytesToInt16 p.1 p.2)

/-! ## Transcription session model (useWebSocketSTT.ts) -/

inductive ConnectionStatus
  | idle
  | connecting
  | connected
  | disconnected
  | error
deriving DecidableEq

inductive WsReadyState
  | connecting
  | opened
  | closed
deriving DecidableEq

structure SttAlternative where
  transcript : String
  confidence : Option ℚ
deriving DecidableEq

structure SttResultPayload where
  is_final : Bool
  stability : ℚ
  alternatives : List SttAlternative
  error : Option String
deriving DecidableEq

structure SttState where
  ws : Option WsReadyState
  status : ConnectionStatus
  errorMsg : Option String
  pendingWaiter : Option ℕ
  settled : List (ℕ × Bool)
  reported : List String
  results : List SttResultPayload
  socketsOpened : ℕ
deriving DecidableEq

def handleError (msg : String) (s : SttState) : SttState :=
  { s with status := .error, errorMsg := some msg,
           reported := s.reported ++ [msg],
           settled := s.settled ++
             (match s.pendingWaiter with | some w => [(w, false)] | none => []),
           pendingWaiter := none }

inductive ConnectResult
  | resolvedNow
  | rejectedNow
  | registered
  | opened
deriving DecidableEq

def connect (hasUrl : Bool) (caller : ℕ) (s : SttState) : SttState × ConnectResult :=
  if !hasUrl then
    ({ s with status := .error,
              errorMsg := some "STT WebSocket URL is not configured." }, .rejectedNow)
  else
    match s.ws with
    | some .opened => (s, .resolvedNow)
    | some .connecting => ({ s with pendingWaiter := some caller }, .registered)
    | _ =>
      ({ s with status := .connecting, ws := some .connecting,
                socketsOpened := s.socketsOpened + 1,
                pendingWaiter := some caller }, .opened)

def onOpen (s : SttState) : SttState :=
  match s.ws with
  | some .connecting =>
    { s with ws := some .opened, status := .connected, errorMsg := none,
             settled := s.settled ++
               (match s.pendingWaiter with | some w => [(w, true)] | none => []),
             pendingWaiter := none }
  | _ => s

def onMessage (raw : Option SttResultPayload) (s : SttState) : SttState :=
  match s.ws with
  | some .opened =>
    match raw with
    | some p => { s with results := s.results ++ [p] }
    | none => handleError "Failed to parse STT payload." s
  | _ => s

def closeMessage (code : ℕ) : String :=
  "WebSocket closed unexpectedly (" ++ toString code ++ ")."

def onClose (code : ℕ) (s : SttState) : SttState :=
  match s.ws with
  | none => s
  | some _ =>
    let s1 := if code = 1000 then { s with status := .disconnected, pendingWaiter := none }
              else handleError (closeMessage code) s
    { s1 with ws := none }

def disconnect (s : SttState) : SttState :=
  match s.ws with
  | none => s
  | some _ => { s with ws := none, status := .disconnected, pendingWaiter := none }

def initialSttState : SttState := ⟨none, .idle, none, none, [], [], [], 0⟩

/-! ## Application transcript dispatch (handleSttResult) -/

structure AppState where
  interim : String
  lastFinal : String
  runtimeError : Option String
  submissions : List String
deriving DecidableEq

def transcriptOf (p : SttResultPayload) : String :=
  match p.alternatives.head? with
  | some a => a.transcript
  | none => ""

def handleSttResult (p : SttResultPayload) (st : AppState) : AppState :=
  if p.error.getD "" ≠ "" then { st with runtimeError := some (p.error.getD "") }
  else
    let transcript := transcriptOf p
    if transcript = "" then
      (if p.is_final then { st with interim := "" } else st)
    else if p.is_final then
      let normalized := strTrim transcript
      if normalized = "" then { st with interim := "" }
      else if normalized = st.lastFinal then st
      else { st with lastFinal := normalized, interim := "",
                     submissions := st.submissions ++ [normalized] }
    else { st with interim := transcript }

/-! ## Conversation controller model (useConversation.ts) -/

inductive Role
  | user
  | model
deriving DecidableEq

structure ConvMessage where
  id : ℕ
  role : Role
  parts : List String
  isStreaming : Bool
  error : Option String
deriving DecidableEq

structure ConvState where
  messages : List ConvMessage
  nextId : ℕ
  currentAssistant : Option ℕ
  accumulated : String
  errorMsg : Option String
  inFlight : ℕ
deriving DecidableEq

inductive GenOutcome
  | success (chunks : List String)
  | failure (msg : String)
  | aborted
deriving DecidableEq

inductive ConvAction
  | appendUser (text : String)
  | appendAssistant
  | startGen
  | streamChunk (chunk : String)
  | finishSuccess
  | finishFailure (msg : String)
  | finishAborted
deriving DecidableEq

def updateMessageById (mid : ℕ) (f : ConvMessage → ConvMessage)
    (ms : List ConvMessage) : List ConvMessage :=
  ms.map fun m => if m.id = mid then f m else m

def applyAction (st : ConvState) : ConvAction → ConvState
  | .appendUser t =>
      { st with messages := st.messages ++ [⟨st.nextId, .user, [t], false, none⟩],
                nextId := st.nextId + 1 }
  | .appendAssistant =>
      { st with messages := st.messages ++ [⟨st.nextId, .model, [""], true, none⟩],
                currentAssistant := some st.nextId,
                nextId := st.nextId + 1, accumulated := "" }
  | .startGen => { st with inFlight := st.inFlight + 1, errorMsg := none }
  | .streamChunk chunk =>
      match st.currentAssistant with
      | some aid =>
        let acc := st.accumulated ++ chunk
        { st with accumulated := acc,
                  messages := updateMessageById aid
                    (fun m => { m with parts := [acc], isStreaming := true }) st.messages }
      | none => st
  | .finishSuccess =>
      match st.currentAssistant with
      | some aid =>
        { st with messages := updateMessageById aid
                    (fun m => { m with parts := [st.accumulated], isStreaming := false })
                    st.messages,
                  inFlight := st.inFlight - 1, currentAssistant := none }
      | none => { st with inFlight := st.inFlight - 1 }
  | .finishFailure msg =>
      match st.currentAssistant with
      | some aid =>
        { st with messages := updateMessageById aid
                    (fun m => { m with parts := [msg], isStreaming := false,
                                       error := some msg }) st.messages,
                  errorMsg := some msg,
                  inFlight := st.inFlight - 1, currentAssistant := none }
      | none => { st with errorMsg := some msg, inFlight := st.inFlight - 1 }
  | .finishAborted =>
      match st.currentAssistant with
      | some aid =>
        { st with messages := st.messages.filter (fun m => decide (m.id ≠ aid)),
                  inFlight := st.inFlight - 1, currentAssistant := none }
      | none => { st with inFlight := st.inFlight - 1 }

def processUserMessageActions (text : String) (o : GenOutcome) : List ConvAction :=
  if strTrim text = "" then []
  else
    [.appendUser (strTrim text), .appendAssistant, .startGen] ++
    (match o with
     | .success chunks => (chunks.map ConvAction.streamChunk) ++ [.finishSuccess]
     | .failure msg => [.finishFailure msg]
     | .aborted => [.finishAborted])

def handleUserMessageChain (inputs : List (String × GenOutcome)) : List ConvAction :=
  inputs.flatMap fun p => processUserMessageActions p.1 p.2

def runActions (st : ConvState) (acts : List ConvAction) : ConvState :=
  acts.foldl applyAction st

def initialConvState : ConvState := ⟨[], 0, none, "", none, 0⟩

def userPartsM (ms : List ConvMessage) : List (List String) :=
  (ms.filter fun m => decide (m.role = Role.user)).map (fun m => m.parts)

def userParts (st : ConvState) : List (List String) := userPartsM st.messages

def ConvInv (st : ConvState) : Prop :=
  (∀ m ∈ st.messages, m.id < st.nextId) ∧ st.currentAssistant = none ∧
  st.inFlight = 0 ∧ (∀ m ∈ st.messages, m.isStreaming = false)

def GenInv (aid : ℕ) (st : ConvState) : Prop :=
  (∀ m ∈ st.messages, m.id < st.nextId) ∧ st.currentAssistant = some aid ∧
  st.inFlight = 1 ∧ aid < st.nextId ∧
  (∀ m ∈ st.messages, m.id ≠ aid → m.isStreaming = false) ∧
  (∀ m ∈ st.messages, m.id = aid → m.role = Role.model)

/-! ## Helper lemmas for the resampler and codec -/

theorem clampSample_mem (s : ℚ) : -1 ≤ clampSample s ∧ clampSample s ≤ 1 := by
  unfold clampSample
  exact ⟨le_max_left _ _, max_le (by norm_num) (min_le_left _ _)⟩

theorem encodeInt16_bounds (s : ℚ) : -32768 ≤ encodeInt16 s ∧ encodeInt16 s ≤ 32767 := by
  obtain ⟨h1, h2⟩ := clampSample_mem s
  unfold encodeInt16 ratTrunc
  set c := clampSample s with hc
  by_cases hneg : c < 0
  · have hx : c * 32768 < 0 := by nlinarith
    simp only [if_pos hneg, if_pos hx]
    constructor
    · have hb : ((-32768 : ℤ) : ℚ) ≤ c * 32768 := by push_cast; nlinarith
      have := le_trans hb (Int.le_ceil (c * 32768))
      exact_mod_cast this
    · have : ⌈c * 32768⌉ ≤ 0 := Int.ceil_le.mpr (by push_cast; linarith)
      omega
  · have hx : ¬ c * 32767 < 0 := by push_neg at hneg ⊢; nlinarith
    simp only [if_neg hneg, if_neg hx]
    constructor
    · have : (0 : ℤ) ≤ ⌊c * 32767⌋ := Int.floor_nonneg.mpr (by push_neg at hneg; nlinarith)
      omega
    · have h := Int.floor_le_floor (α := ℚ) (show c * 32767 ≤ 32767 by nlinarith)
      simpa using h

theorem bytes_roundtrip (v : ℤ) (h1 : -32768 ≤ v) (h2 : v ≤ 32767) :
    bytesToInt16 ((v % 65536).toNat % 256) ((v % 65536).toNat / 256) = v := by
  simp only [bytesToInt16]
  split <;> omega

theorem encode_decode_close (s : ℚ) :
    |int16ToFloat (encodeInt16 s) - clampSample s| ≤ 1 / 32767 := by
  obtain ⟨h1, h2⟩ := clampSample_mem s
  unfold encodeInt16 int16ToFloat ratTrunc
  set c := clampSample s with hc
  have hsmall : (1 : ℚ) / 32768 ≤ 1 / 32767 := by norm_num
  by_cases hneg : c < 0
  · have hx : c * 32768 < 0 := by nlinarith
    simp only [if_pos hneg, if_pos hx]
    set n := ⌈c * 32768⌉ with hn
    have hle : c * 32768 ≤ (n : ℚ) := Int.le_ceil _
    have hlt : (n : ℚ) < c * 32768 + 1 := Int.ceil_lt_add_one _
    by_cases hv : n < 0
    · simp only [if_pos hv]
      have heq : (n : ℚ) / 32768 - c = ((n : ℚ) - c * 32768) / 32768 := by ring
      rw [heq, abs_of_nonneg (div_nonneg (by linarith) (by norm_num))]
      calc ((n : ℚ) - c * 32768) / 32768 ≤ 1 / 32768 := by
            apply (div_le_div_iff_of_pos_right (by norm_num)).mpr
            linarith
        _ ≤ 1 / 32767 := hsmall
    · have hn0 : n = 0 := le_antisymm (by
        have : ⌈c * 32768⌉ ≤ (0 : ℤ) := Int.ceil_le.mpr (by push_cast; linarith)
        exact this) (not_lt.mp hv)
      rw [hn0]
      norm_num
      rw [abs_of_neg hneg]
      have : (0 : ℚ) < c * 32768 + 1 := by
        have : ((0 : ℤ) : ℚ) < c * 32768 + 1 := by rw [← hn0]; exact_mod_cast hlt
        exact_mod_cast this
      linarith
  · have hx : ¬ c * 32767 < 0 := by push_neg at hneg ⊢; nlinarith
    simp only [if_neg hneg, if_neg hx]
    set n := ⌊c * 32767⌋ with hn
    have hnn : ¬ n < 0 := by
      simp only [not_lt, hn]
      exact Int.floor_nonneg.mpr (by push_neg at hneg; nlinarith)
    simp only [if_neg hnn]
    have hle : (n : ℚ) ≤ c * 32767 := Int.floor_le _
    have hlt : c * 32767 < (n : ℚ) + 1 := Int.lt_floor_add_one _
    have heq : (n : ℚ) / 32767 - c = ((n : ℚ) - c * 32767) / 32767 := by ring
    rw [heq, abs_of_nonpos (div_nonpos_of_nonpos_of_nonneg (by linarith) (by norm_num))]
    have heq2 : -(((n : ℚ) - c * 32767) / 32767) = (c * 32767 - n) / 32767 := by ring
    rw [heq2]
    apply (div_le_div_iff_of_pos_right (by norm_num)).mpr
    linarith

theorem decode_convert_cons (s : ℚ) (rest : List ℚ) :
    decodePCM16 (convertFloat32ToInt16 (s :: rest)) =
      int16ToFloat (encodeInt16 s) :: decodePCM16 (convertFloat32ToInt16 rest) := by
  obtain ⟨hb1, hb2⟩ := encodeInt16_bounds s
  have hflat : convertFloat32ToInt16 (s :: rest) =
      int16Bytes (encodeInt16 s) ++ convertFloat32ToInt16 rest := by
    simp [convertFloat32ToInt16]
  rw [hflat]
  unfold decodePCM16
  have hpairs : bytePairs (int16Bytes (encodeInt16 s) ++ convertFloat32ToInt16 rest) =
      ((encodeInt16 s % 65536).toNat % 256, (encodeInt16 s % 65536).toNat / 256) ::
        bytePairs (convertFloat32ToInt16 rest) := by
    simp [int16Bytes, bytePairs]
  rw [hpairs]
  simp only [List.map_cons]
  rw [bytes_roundtrip _ hb1 hb2]

theorem downsample_intStep (T k : ℕ) (hT : 0 < T) (hk : 2 ≤ k) (f c : List ℚ) :
    (downsample f (k * T) T c).map
        (fun r => (r.downsampled.length, r.leftover.length)) =
      .ok ((c.length + f.length) / k, (c.length + f.length) % k) := by
  have hTlt : T < k * T := by
    calc T = 1 * T := (one_mul T).symm
    _ < k * T := (Nat.mul_lt_mul_right hT).mpr (by omega)
  have hne : ¬ T = k * T := by omega
  have hnlt : ¬ k * T < T := by omega
  have hrq : ((k * T : ℕ) : ℚ) / ((T : ℕ) : ℚ) = ((k : ℕ) : ℚ) := by
    push_cast
    field_simp
  simp only [downsample, if_neg hne, if_neg hnlt, hrq, Except.map, Except.ok.injEq,
    Prod.mk.injEq]
  constructor
  · rw [List.length_map, List.length_range]
    rw [Nat.floor_div_nat, Nat.floor_natCast, List.length_append]
  · rw [List.length_drop]
    rw [Nat.floor_div_nat, Nat.floor_natCast, List.length_append]
    set L := c.length + f.length with hL
    by_cases h0 : L / k = 0
    · rw [if_pos h0]
      have hdm := Nat.div_add_mod L k
      rw [h0, Nat.mul_zero] at hdm
      omega
    · rw [if_neg h0]
      have hfl : ⌊((L / k : ℕ) : ℚ) * ((k : ℕ) : ℚ)⌋₊ = L / k * k := by
        rw [← Nat.cast_mul, Nat.floor_natCast]
      rw [hfl]
      have hdm := Nat.div_add_mod L k
      have hcm : L / k * k = k * (L / k) := Nat.mul_comm _ _
      have hle : L / k * k ≤ L := Nat.div_mul_le_self L k
      omega

theorem div_chunk (L M k : ℕ) (hk : 0 < k) : L / k + (L % k + M) / k = (L + M) / k := by
  conv_rhs => rw [← Nat.div_add_mod L k, Nat.add_assoc, Nat.mul_add_div hk]

theorem mod_chunk (L M k : ℕ) : (L % k + M) % k = (L + M) % k := by
  conv_rhs => rw [← Nat.div_add_mod L k, Nat.add_assoc, Nat.mul_add_mod]

theorem feedFrames_intRatio (T k : ℕ) (hT : 0 < T) (hk : 2 ≤ k) :
    ∀ (frames : List (List ℚ)) (c : List ℚ) (acc : ℕ), c.length < k →
      (feedFrames (k * T) T frames (c, acc)).2 = acc + (c.length + totalSamples frames) / k ∧
      (feedFrames (k * T) T frames (c, acc)).1.length = (c.length + totalSamples frames) % k := by
  intro frames
  induction frames with
  | nil =>
    intro c acc hc
    constructor
    · simp [feedFrames, totalSamples, Nat.div_eq_of_lt hc]
    · simp [feedFrames, totalSamples, Nat.mod_eq_of_lt hc]
  | cons f rest ih =>
    intro c acc hc
    have hstep := downsample_intStep T k hT hk f c
    obtain ⟨r, hr⟩ : ∃ r, downsample f (k * T) T c = .ok r := by
      cases hds : downsample f (k * T) T c with
      | ok r => exact ⟨r, rfl⟩
      | error e => rw [hds] at hstep; simp [Except.map] at hstep
    rw [hr] at hstep
    simp only [Except.map, Except.ok.injEq, Prod.mk.injEq] at hstep
    obtain ⟨hlen, hleft⟩ := hstep
    have hck : r.leftover.length < k := by
      rw [hleft]
      exact Nat.mod_lt _ (by omega)
    have hun : feedFrames (k * T) T (f :: rest) (c, acc) =
        feedFrames (k * T) T rest (r.leftover, acc + r.downsampled.length) := by
      simp [feedFrames, hr]
    rw [hun]
    obtain ⟨ih1, ih2⟩ := ih r.leftover (acc + r.downsampled.length) hck
    have htot : totalSamples (f :: rest) = f.length + totalSamples rest := by
      simp [totalSamples]
    have ediv := div_chunk (c.length + f.length) (totalSamples rest) k (by omega)
    have emod := mod_chunk (c.length + f.length) (totalSamples rest) k
    constructor
    · rw [ih1, hlen, hleft, htot, ← Nat.add_assoc]
      omega
    · rw [ih2, hleft, htot, ← Nat.add_assoc]
      omega

theorem downsample_passthrough_chain (T : ℕ) :
    ∀ (frames : List (List ℚ)) (acc : ℕ),
      (feedFrames T T frames ([], acc)).2 = acc + totalSamples frames := by
  intro frames
  induction frames with
  | nil => intro acc; simp [feedFrames, totalSamples]
  | cons f rest ih =>
    intro acc
    have h : downsample f T T [] = .ok ⟨f, []⟩ := by simp [downsample]
    simp only [feedFrames, h]
    rw [ih]
    have : totalSamples (f :: rest) = f.length + totalSamples rest := by simp [totalSamples]
    omega

/-! ## Claim theorems for the resampler and codec -/

/-- Claim C9: downsampling requires targetRate at most sourceRate: a larger
target rate fails with the configuration error, and an equal target rate
is an exact pass-through returning the input frame and an empty carry. -/
theorem downsample_rate_contract (input carry : List ℚ) (S T : ℕ) :
    (S < T → downsample input S T carry =
      Except.error "Target sample rate must be less than or equal to input sample rate.") ∧
    (T = S → downsample input S T carry = Except.ok ⟨input, []⟩) := by
  constructor
  · intro h
    have hne : T ≠ S := by omega
    simp [downsample, hne, h]
  · intro h
    simp [downsample, h]

/-- Claim C9 witness at concrete rates 16000 and 48000. -/
theorem downsample_rate_contract_witness :
    downsample [(1 : ℚ)] 16000 48000 [] =
      Except.error "Target sample rate must be less than or equal to input sample rate." ∧
    downsample [(1 : ℚ)] 48000 48000 [] = Except.ok ⟨[(1 : ℚ)], []⟩ := by
  refine ⟨(downsample_rate_contract [(1 : ℚ)] [] 16000 48000).1 (by norm_num),
    (downsample_rate_contract [(1 : ℚ)] [] 48000 48000).2 rfl⟩

/-- Claim C4: at source rate 48000 and target rate 16000, a 3-sample carry of
full-scale samples plus a 9-sample frame of value 1.0 yields exactly 4
output samples, an empty updated carry, and an 8-byte PCM16 chunk whose
4 byte pairs are all the little-endian encoding 255, 127 of the maximum
positive 16-bit value 32767. -/
theorem downsample_scenario_48k_16k :
    downsample (List.replicate 9 (1 : ℚ)) 48000 16000 (List.replicate 3 (1 : ℚ)) =
      Except.ok ⟨List.replicate 4 (1 : ℚ), []⟩ ∧
    convertFloat32ToInt16 (List.replicate 4 (1 : ℚ)) =
      [255, 127, 255, 127, 255, 127, 255, 127] ∧
    (convertFloat32ToInt16 (List.replicate 4 (1 : ℚ))).length = 8 := by
  refine ⟨?_, ?_, ?_⟩
  · norm_num [downsample, windowAvg, List.replicate, List.range_succ]
  · norm_num [convertFloat32ToInt16, encodeInt16, clampSample, ratTrunc, int16Bytes,
      List.replicate]
    decide
  · norm_num [convertFloat32ToInt16, encodeInt16, clampSample, ratTrunc, int16Bytes,
      List.replicate]

/-- Claim C5 counterexample: at source rate 3 and target rate 2 (quotient 1.5),
feeding nine one-sample frames produces 8 output samples while
floor(totalSamples/quotient) is 6: the deviation is 2, exceeding the
claimed boundary error of at most one sample. -/
theorem feedFrames_boundary_counterexample :
    (feedFrames 3 2 (List.replicate 9 [(0 : ℚ)]) ([], 0)).2 = 8 ∧
    ⌊(9 : ℚ) / ((3 : ℚ) / (2 : ℚ))⌋₊ = 6 ∧
    ¬ ((feedFrames 3 2 (List.replicate 9 [(0 : ℚ)]) ([], 0)).2 ≤
        ⌊(9 : ℚ) / ((3 : ℚ) / (2 : ℚ))⌋₊ + 1) := by
  have h23 : ⌊(2 : ℚ) / 3⌋₊ = 0 := by
    rw [Nat.floor_eq_iff (by norm_num)]; norm_num
  have h43 : ⌊(4 : ℚ) / 3⌋₊ = 1 := by
    rw [Nat.floor_eq_iff (by norm_num)]; norm_num
  have h32 : ⌊(3 : ℚ) / 2⌋₊ = 1 := by
    rw [Nat.floor_eq_iff (by norm_num)]; norm_num
  have s1 : downsample [(0 : ℚ)] 3 2 [] = .ok ⟨[], [0]⟩ := by
    norm_num [downsample, windowAvg, h23]
  have s2 : downsample [(0 : ℚ)] 3 2 [0] = .ok ⟨[0], [0]⟩ := by
    norm_num [downsample, windowAvg, h43, h32, List.range_succ]
  have step : ∀ (f : List ℚ) (rest : List (List ℚ)) (c : List ℚ) (acc : ℕ)
      (r : DownsampleResult), downsample f 3 2 c = .ok r →
      feedFrames 3 2 (f :: rest) (c, acc) =
        feedFrames 3 2 rest (r.leftover, acc + r.downsampled.length) := by
    intro f rest c acc r h
    simp [feedFrames, h]
  have hf : ∀ n acc, feedFrames 3 2 (List.replicate n [(0 : ℚ)]) ([0], acc) = ([0], acc + n) := by
    intro n
    induction n with
    | zero => intro acc; simp [feedFrames]
    | succ m ih =>
      intro acc
      rw [List.replicate_succ, step _ _ _ _ _ s2, ih]
      have : acc + 1 + m = acc + (m + 1) := by omega
      simp [this]
  have hmain : (feedFrames 3 2 (List.replicate 9 [(0 : ℚ)]) ([], 0)).2 = 8 := by
    rw [List.replicate_succ, step _ _ _ _ _ s1]
    simp only [List.length_nil, Nat.add_zero]
    rw [hf]
  have hfl : ⌊(9 : ℚ) / ((3 : ℚ) / (2 : ℚ))⌋₊ = 6 := by
    have : (9 : ℚ) / ((3 : ℚ) / (2 : ℚ)) = 6 := by norm_num
    rw [this]
    norm_num
  refine ⟨hmain, hfl, ?_⟩
  rw [hmain, hfl]
  omega

/-- Claim C5 amended: when the source rate is an integer multiple k of the
target rate, incremental feeding conserves sample counts exactly: the
concatenated output length equals totalSamples divided by k, which is
floor(totalSamples/(sourceRate/targetRate)) with boundary error zero. -/
theorem feedFrames_conserves (T k : ℕ) (hT : 0 < T) (hk : 0 < k)
    (frames : List (List ℚ)) :
    (feedFrames (k * T) T frames ([], 0)).2 = totalSamples frames / k := by
  rcases Nat.lt_or_ge k 2 with hk2 | hk2
  · have hk1 : k = 1 := by omega
    subst hk1
    rw [one_mul, Nat.div_one]
    simpa using downsample_passthrough_chain T frames 0
  · have := (feedFrames_intRatio T k hT hk2 frames [] 0 (by simpa using by omega)).1
    simpa using this

/-- Claim C5 witness: 48000 = 3 * 16000; twelve samples fed as one frame yield
twelve divided by three, namely 4, output samples. -/
theorem feedFrames_conserves_witness :
    (0 : ℕ) < 16000 ∧ (0 : ℕ) < 3 ∧
    (feedFrames (3 * 16000) 16000 [List.replicate 12 (1 : ℚ)] ([], 0)).2 = 4 := by
  refine ⟨by norm_num, by norm_num, ?_⟩
  rw [feedFrames_conserves 16000 3 (by norm_num) (by norm_num) [List.replicate 12 (1 : ℚ)]]
  simp [totalSamples]

/-- Claim C6 counterexample: for the sample 8388609 / 2^38 (a value an IEEE
binary32 float represents exactly), the encoded 16-bit value is 0, the
decoded sample is 0, and the roundtrip error equals the sample itself,
which strictly exceeds 1/32768: the claimed bound fails. -/
theorem pcm16_error_counterexample :
    ¬ |(decodePCM16 (convertFloat32ToInt16 [(8388609 : ℚ) / 274877906944])).headD 0 -
        clampSample ((8388609 : ℚ) / 274877906944)| ≤ 1 / 32768 := by
  norm_num [decodePCM16, convertFloat32ToInt16, encodeInt16, clampSample, ratTrunc,
    int16Bytes, bytePairs, bytesToInt16, int16ToFloat]
  rw [abs_of_pos (by positivity)]
  norm_num

/-- Claim C6 amended: the PCM16 roundtrip through convertFloat32ToInt16 and the
playback decoder reproduces each clamped input sample to within one
quantization step of the positive scale, namely error at most 1/32767. -/
theorem pcm16_roundtrip_bound (samples : List ℚ) :
    List.Forall₂ (fun d s => |d - clampSample s| ≤ 1 / 32767)
      (decodePCM16 (convertFloat32ToInt16 samples)) samples := by
  induction samples with
  | nil => simp [convertFloat32ToInt16, decodePCM16, bytePairs]
  | cons s rest ih =>
    rw [decode_convert_cons]
    exact List.Forall₂.cons (encode_decode_close s) ih

/-! ## Transcription session theorems -/

/-- Claim C3 counterexample: caller 0 connects from idle (opening the
socket), caller 1 connects while the socket is still connecting, and then
the connection opens: only caller 1 is settled, caller 0 was overwritten
in the single pending slot and never resolves, so the waiters do not all
resolve together with the connection outcome. -/
theorem connect_shared_outcome_counterexample :
    ((onOpen (connect true 1 (connect true 0 initialSttState).1).1).settled = [(1, true)] ∧
      (onOpen (connect true 1 (connect true 0 initialSttState).1).1).status =
        ConnectionStatus.connected ∧
      (onOpen (connect true 1 (connect true 0 initialSttState).1).1).socketsOpened = 1) ∧
    ¬ (0, true) ∈ (onOpen (connect true 1 (connect true 0 initialSttState).1).1).settled := by
  decide

/-- Claim C3 amended: a connect request while the session is Connecting
opens no second connection and keeps the existing socket, but only
registers this latest caller in the single pending slot, overwriting any
earlier waiter; when the connection settles, exactly the registered
caller settles with it (resolved on open, rejected on error). -/
theorem connect_single_flight (s : SttState) (i : ℕ)
    (h : s.ws = some WsReadyState.connecting) :
    ((connect true i s).1.socketsOpened = s.socketsOpened ∧
      (connect true i s).1.ws = s.ws ∧
      (connect true i s).2 = ConnectResult.registered ∧
      (connect true i s).1.pendingWaiter = some i) ∧
    (onOpen (connect true i s).1).settled = s.settled ++ [(i, true)] ∧
    (∀ msg, (handleError msg (connect true i s).1).settled = s.settled ++ [(i, false)]) := by
  refine ⟨⟨?_, ?_, ?_, ?_⟩, ?_, ?_⟩ <;>
    simp [connect, onOpen, handleError, h]

/-- Claim C3 witness at a concrete connecting state. -/
theorem connect_single_flight_witness :
    ((connect true 7 ⟨some .connecting, .connecting, none, some 0, [], [], [], 1⟩).1.socketsOpened = 1 ∧
      (connect true 7 ⟨some .connecting, .connecting, none, some 0, [], [], [], 1⟩).2 =
        ConnectResult.registered) ∧
    (onOpen (connect true 7 ⟨some .connecting, .connecting, none, some 0, [], [], [], 1⟩).1).settled =
      [(7, true)] := by
  have h := connect_single_flight ⟨some .connecting, .connecting, none, some 0, [], [], [], 1⟩ 7 rfl
  exact ⟨⟨h.1.1, h.1.2.2.1⟩, h.2.1⟩

/-- Claim C7 counterexample: an unparseable inbound message on an open
connected session leaves the socket open but sets the session status to
Error, contradicting that the session does not enter the error state. -/
theorem parse_error_counterexample :
    (onMessage none ⟨some .opened, .connected, none, none, [], [], [], 1⟩).status =
      ConnectionStatus.error ∧
    (onMessage none ⟨some .opened, .connected, none, none, [], [], [], 1⟩).ws =
      some WsReadyState.opened := by
  decide

/-- Claim C7 amended: a parse failure is reported on the error channel
with the parse error message and is non-fatal in the sense that the
socket is not closed and later well-formed messages are still delivered;
however the session status is set to Error and the message recorded. -/
theorem parse_error_nonfatal (s : SttState) (h : s.ws = some WsReadyState.opened) :
    (onMessage none s).reported = s.reported ++ ["Failed to parse STT payload."] ∧
    (onMessage none s).ws = some WsReadyState.opened ∧
    (onMessage none s).status = ConnectionStatus.error ∧
    (onMessage none s).errorMsg = some "Failed to parse STT payload." ∧
    (∀ p, (onMessage (some p) (onMessage none s)).results =
      (onMessage none s).results ++ [p]) := by
  refine ⟨?_, ?_, ?_, ?_, ?_⟩ <;>
    simp [onMessage, handleError, h]

/-- Claim C7 witness at a concrete connected state. -/
theorem parse_error_nonfatal_witness :
    (onMessage none ⟨some .opened, .connected, none, none, [], [], [], 1⟩).reported =
      ["Failed to parse STT payload."] ∧
    (onMessage none ⟨some .opened, .connected, none, none, [], [], [], 1⟩).ws =
      some WsReadyState.opened := by
  have h := parse_error_nonfatal ⟨some .opened, .connected, none, none, [], [], [], 1⟩ rfl
  exact ⟨h.1, h.2.1⟩

/-- Claim C8: a close event with code 1000 transitions the session to
Disconnected, reporting nothing and leaving the stored error unchanged;
a close with any other code transitions to Error with the populated,
non-empty descriptive message naming the code. -/
theorem close_code_transitions (s : SttState) (hws : s.ws.isSome) :
    ((onClose 1000 s).status = ConnectionStatus.disconnected ∧
      (onClose 1000 s).reported = s.reported ∧
      (onClose 1000 s).errorMsg = s.errorMsg) ∧
    (∀ code, code ≠ 1000 →
      (onClose code s).status = ConnectionStatus.error ∧
      (onClose code s).errorMsg = some (closeMessage code) ∧
      closeMessage code ≠ "") := by
  obtain ⟨w, hw⟩ := Option.isSome_iff_exists.mp hws
  constructor
  · refine ⟨?_, ?_, ?_⟩ <;> simp [onClose, hw]
  · intro code hcode
    refine ⟨?_, ?_, ?_⟩
    · simp [onClose, hw, hcode, handleError]
    · simp [onClose, hw, hcode, handleError]
    · intro habs
      have hlen0 : (closeMessage code).length = 0 := by rw [habs]; rfl
      rw [closeMessage, String.length_append, String.length_append] at hlen0
      have h1 : ("WebSocket closed unexpectedly (" : String).length = 31 := rfl
      have h2 : (")." : String).length = 2 := rfl
      rw [h1, h2] at hlen0
      omega

/-- Claim C8 witness at codes 1000 and 1006. -/
theorem close_code_transitions_witness :
    (onClose 1000 ⟨some .opened, .connected, none, none, [], [], [], 1⟩).status =
      ConnectionStatus.disconnected ∧
    (onClose 1006 ⟨some .opened, .connected, none, none, [], [], [], 1⟩).status =
      ConnectionStatus.error ∧
    (onClose 1006 ⟨some .opened, .connected, none, none, [], [], [], 1⟩).errorMsg =
      some "WebSocket closed unexpectedly (1006)." := by
  have h := close_code_transitions ⟨some .opened, .connected, none, none, [], [], [], 1⟩ rfl
  refine ⟨h.1.1, (h.2 1006 (by norm_num)).1, ?_⟩
  rw [(h.2 1006 (by norm_num)).2.1]
  rfl

/-! ## Transcript dispatch helper theorems -/

theorem strTrim_empty : strTrim "" = "" := rfl

theorem handleSttResult_emptyFinal (p : SttResultPayload) (st : AppState)
    (he : p.error = none) (hf : p.is_final = true)
    (h0 : strTrim (transcriptOf p) = "") :
    handleSttResult p st = { st with interim := "" } := by
  unfold handleSttResult
  rw [he]
  have hcond : ¬ ((none : Option String).getD "" ≠ "") := by simp
  rw [if_neg hcond]
  by_cases htr : transcriptOf p = ""
  · simp [htr, hf]
  · simp [htr, hf, h0]

theorem handleSttResult_dup (p : SttResultPayload) (st : AppState)
    (he : p.error = none) (hf : p.is_final = true)
    (hd : strTrim (transcriptOf p) = st.lastFinal) :
    (handleSttResult p st).submissions = st.submissions ∧
    (handleSttResult p st).lastFinal = st.lastFinal := by
  unfold handleSttResult
  rw [he]
  have hcond : ¬ ((none : Option String).getD "" ≠ "") := by simp
  rw [if_neg hcond]
  by_cases htr : transcriptOf p = ""
  · simp [htr, hf]
  · by_cases h0 : strTrim (transcriptOf p) = ""
    · simp [htr, hf, h0]
    · simp only [htr, hf, h0]
      simp [hd]

theorem handleSttResult_commit (p : SttResultPayload) (st : AppState)
    (he : p.error = none) (hf : p.is_final = true)
    (hn : strTrim (transcriptOf p) ≠ "")
    (hnew : strTrim (transcriptOf p) ≠ st.lastFinal) :
    handleSttResult p st =
      { st with lastFinal := strTrim (transcriptOf p), interim := "",
                submissions := st.submissions ++ [strTrim (transcriptOf p)] } := by
  have htr : transcriptOf p ≠ "" := by
    intro habs
    rw [habs, strTrim_empty] at hn
    exact hn rfl
  unfold handleSttResult
  rw [he]
  have hcond : ¬ ((none : Option String).getD "" ≠ "") := by simp
  rw [if_neg hcond]
  simp [htr, hf, hn, hnew]

theorem handleSttResult_growth (p : SttResultPayload) (st : AppState) :
    (handleSttResult p st).submissions.length ≤ st.submissions.length + 1 := by
  unfold handleSttResult
  split
  · simp
  · by_cases htr : transcriptOf p = ""
    · by_cases hf : p.is_final <;> simp [htr, hf]
    · by_cases hf : p.is_final
      · by_cases h0 : strTrim (transcriptOf p) = ""
        · simp [htr, hf, h0]
        · by_cases hd : strTrim (transcriptOf p) = st.lastFinal
          · simp only [htr, hf, h0, hd]
            simp
            split <;> simp
          · simp [htr, hf, h0, hd]
      · simp [htr, hf]

theorem stt_head_only_invariance (p q : SttResultPayload) (st : AppState)
    (he : p.error = q.error) (hf : p.is_final = q.is_final)
    (ht : transcriptOf p = transcriptOf q) :
    handleSttResult p st = handleSttResult q st := by
  unfold handleSttResult
  rw [he, hf, ht]

theorem stt_interim_overwrite (p : SttResultPayload) (st : AppState)
    (he : p.error = none) (hf : p.is_final = false)
    (ht : transcriptOf p ≠ "") :
    (handleSttResult p st).interim = transcriptOf p := by
  unfold handleSttResult
  rw [he]
  have hcond : ¬ ((none : Option String).getD "" ≠ "") := by simp
  rw [if_neg hcond]
  simp [ht, hf]

theorem transcriptOf_nilAlternatives (p : SttResultPayload)
    (h : p.alternatives = []) : transcriptOf p = "" := by
  unfold transcriptOf
  rw [h]
  rfl

/-! ## Conversation controller theorems -/

theorem scanl_append_split {α β : Type} (f : β → α → β) :
    ∀ (l1 l2 : List α) (b : β),
      List.scanl f b (l1 ++ l2) =
        List.scanl f b l1 ++ (List.scanl f (List.foldl f b l1) l2).tail := by
  intro l1
  induction l1 with
  | nil =>
    intro l2 b
    cases l2 with
    | nil => simp [List.scanl]
    | cons a t => simp [List.scanl_cons, List.scanl_nil, List.foldl]
  | cons a t ih =>
    intro l2 b
    simp only [List.cons_append, List.scanl_cons, List.foldl_cons, List.cons_append]
    rw [ih]
    simp

theorem userPartsM_cons (m : ConvMessage) (ms : List ConvMessage) :
    userPartsM (m :: ms) =
      (if m.role = Role.user then [m.parts] else []) ++ userPartsM ms := by
  unfold userPartsM
  rw [List.filter_cons]
  by_cases h : m.role = Role.user <;> simp [h]

theorem userPartsM_append (ms : List ConvMessage) (m : ConvMessage) :
    userPartsM (ms ++ [m]) =
      userPartsM ms ++ (if m.role = Role.user then [m.parts] else []) := by
  unfold userPartsM
  rw [List.filter_append, List.map_append]
  by_cases h : m.role = Role.user <;> simp [h]

theorem updateMessageById_cons (mid : ℕ) (f : ConvMessage → ConvMessage)
    (m : ConvMessage) (ms : List ConvMessage) :
    updateMessageById mid f (m :: ms) =
      (if m.id = mid then f m else m) :: updateMessageById mid f ms := rfl

theorem userPartsM_update (aid : ℕ) (f : ConvMessage → ConvMessage)
    (hrole : ∀ m, (f m).role = m.role) :
    ∀ (ms : List ConvMessage), (∀ m ∈ ms, m.id = aid → m.role = Role.model) →
      userPartsM (updateMessageById aid f ms) = userPartsM ms := by
  intro ms
  induction ms with
  | nil => intro _; rfl
  | cons m rest ih =>
    intro hmodel
    have hrest : ∀ x ∈ rest, x.id = aid → x.role = Role.model := fun x hx =>
      hmodel x (List.mem_cons_of_mem _ hx)
    rw [updateMessageById_cons]
    by_cases hid : m.id = aid
    · have hm : m.role = Role.model := hmodel m (List.mem_cons_self _ _) hid
      have hfm : (f m).role = Role.model := by rw [hrole m, hm]
      rw [if_pos hid, userPartsM_cons, userPartsM_cons, ih hrest, hfm, hm]
      simp
    · rw [if_neg hid, userPartsM_cons, userPartsM_cons, ih hrest]

theorem userPartsM_filterOut (aid : ℕ) :
    ∀ (ms : List ConvMessage), (∀ m ∈ ms, m.id = aid → m.role = Role.model) →
      userPartsM (ms.filter (fun m => decide (m.id ≠ aid))) = userPartsM ms := by
  intro ms
  induction ms with
  | nil => intro _; rfl
  | cons m rest ih =>
    intro hmodel
    have hrest : ∀ x ∈ rest, x.id = aid → x.role = Role.model := fun x hx =>
      hmodel x (List.mem_cons_of_mem _ hx)
    rw [List.filter_cons]
    by_cases hid : m.id = aid
    · have hm : m.role = Role.model := hmodel m (List.mem_cons_self _ _) hid
      have hb : decide (m.id ≠ aid) = false := by simp [hid]
      rw [hb]
      simp only [Bool.false_eq_true, if_false]
      rw [ih hrest, userPartsM_cons, hm]
      simp
    · have hb : decide (m.id ≠ aid) = true := by simp [hid]
      rw [hb]
      simp only [if_true]
      rw [userPartsM_cons, userPartsM_cons, ih hrest]

theorem mem_updateMessageById (aid : ℕ) (f : ConvMessage → ConvMessage)
    (ms : List ConvMessage) (m : ConvMessage)
    (h : m ∈ updateMessageById aid f ms) :
    (m ∈ ms ∧ m.id ≠ aid) ∨ (∃ m0 ∈ ms, m0.id = aid ∧ m = f m0) ∨
      (m ∈ ms ∧ m.id = aid ∧ m = f m) := by
  unfold updateMessageById at h
  obtain ⟨m0, hm0, heq⟩ := List.mem_map.mp h
  by_cases hid : m0.id = aid
  · rw [if_pos hid] at heq
    exact Or.inr (Or.inl ⟨m0, hm0, hid, heq.symm⟩)
  · rw [if_neg hid] at heq
    subst heq
    exact Or.inl ⟨hm0, hid⟩

theorem stream_chunks (aid : ℕ) :
    ∀ (chunks : List String) (st : ConvState), GenInv aid st →
      GenInv aid (runActions st (chunks.map ConvAction.streamChunk)) ∧
      userParts (runActions st (chunks.map ConvAction.streamChunk)) = userParts st ∧
      (∀ s2 ∈ List.scanl applyAction st (chunks.map ConvAction.streamChunk),
        s2.inFlight ≤ 1) := by
  intro chunks
  induction chunks with
  | nil =>
    intro st hst
    refine ⟨hst, rfl, ?_⟩
    intro s2 hs2
    simp only [List.map_nil, List.scanl_nil, List.mem_singleton] at hs2
    subst hs2
    rw [hst.2.2.1]
  | cons c rest ih =>
    intro st hst
    obtain ⟨hids, hca, hif, haid, hstream, hrole⟩ := hst
    have hstep : applyAction st (.streamChunk c) =
        { st with accumulated := st.accumulated ++ c,
                  messages := updateMessageById aid
                    (fun m => { m with parts := [st.accumulated ++ c],
                                       isStreaming := true }) st.messages } := by
      simp [applyAction, hca]
    have hnext : GenInv aid (applyAction st (.streamChunk c)) := by
      rw [hstep]
      refine ⟨?_, hca, hif, haid, ?_, ?_⟩
      · intro m hm
        rcases mem_updateMessageById _ _ _ _ hm with ⟨hm0, _⟩ | ⟨m0, hm0, _, heq⟩ |
          ⟨hm0, _, heq⟩
        · exact hids m hm0
        · subst heq; exact hids m0 hm0
        · rw [heq]; exact hids m hm0
      · intro m hm hne
        rcases mem_updateMessageById _ _ _ _ hm with ⟨hm0, _⟩ | ⟨m0, hm0, hid0, heq⟩ |
          ⟨hm0, hid0, heq⟩
        · exact hstream m hm0 hne
        · subst heq; exact absurd hid0 hne
        · exact absurd hid0 hne
      · intro m hm hid
        rcases mem_updateMessageById _ _ _ _ hm with ⟨hm0, hne⟩ | ⟨m0, hm0, hid0, heq⟩ |
          ⟨hm0, hid0, heq⟩
        · exact absurd hid hne
        · subst heq; exact hrole m0 hm0 hid0
        · rw [heq]; exact hrole m hm0 hid0
    have huser : userParts (applyAction st (.streamChunk c)) = userParts st := by
      rw [hstep]
      unfold userParts
      exact userPartsM_update aid
        (fun m => { m with parts := [st.accumulated ++ c], isStreaming := true })
        (fun m => rfl) st.messages hrole
    have hrun : runActions st ((c :: rest).map ConvAction.streamChunk) =
        runActions (applyAction st (.streamChunk c)) (rest.map ConvAction.streamChunk) := by
      simp [runActions]
    obtain ⟨ihInv, ihUser, ihTrace⟩ := ih (applyAction st (.streamChunk c)) hnext
    refine ⟨by rw [hrun]; exact ihInv, by rw [hrun, ihUser, huser], ?_⟩
    intro s2 hs2
    rw [List.map_cons, List.scanl_cons] at hs2
    rw [List.singleton_append, List.mem_cons] at hs2
    rcases hs2 with h0 | hmem
    · subst h0
      rw [hif]
    · exact ihTrace s2 hmem

theorem run3_steps (st : ConvState) (t' : String) :
    runActions st [.appendUser t', .appendAssistant, .startGen] =
      ⟨(st.messages ++ [⟨st.nextId, .user, [t'], false, none⟩]) ++
          [⟨st.nextId + 1, .model, [""], true, none⟩],
        st.nextId + 1 + 1, some (st.nextId + 1), "", none, st.inFlight + 1⟩ := rfl

theorem genInv_run3 (st : ConvState) (h : ConvInv st) (t' : String) :
    GenInv (st.nextId + 1) (runActions st [.appendUser t', .appendAssistant, .startGen]) ∧
    userParts (runActions st [.appendUser t', .appendAssistant, .startGen]) =
      userParts st ++ [[t']] := by
  obtain ⟨hids, hca, hif, hstream⟩ := h
  rw [run3_steps]
  constructor
  · refine ⟨?_, rfl, by dsimp only; omega, by dsimp only; omega, ?_, ?_⟩
    · intro m hm
      dsimp only at hm ⊢
      simp only [List.mem_append, List.mem_singleton] at hm
      rcases hm with (hm | hm) | hm
      · have := hids m hm; omega
      · subst hm; dsimp only; omega
      · subst hm; dsimp only; omega
    · intro m hm hne
      dsimp only at hm hne ⊢
      simp only [List.mem_append, List.mem_singleton] at hm
      rcases hm with (hm | hm) | hm
      · exact hstream m hm
      · subst hm; rfl
      · subst hm; simp at hne
    · intro m hm hid
      dsimp only at hm hid ⊢
      simp only [List.mem_append, List.mem_singleton] at hm
      rcases hm with (hm | hm) | hm
      · have := hids m hm; omega
      · subst hm; simp at hid
      · subst hm; rfl
  · show userPartsM _ = _
    dsimp only
    rw [userPartsM_append, userPartsM_append]
    simp [userParts]

theorem convInv_finish (aid : ℕ) (st : ConvState) (h : GenInv aid st) :
    (ConvInv (applyAction st .finishSuccess) ∧
      userParts (applyAction st .finishSuccess) = userParts st ∧
      (applyAction st .finishSuccess).inFlight = 0) ∧
    (∀ msg, ConvInv (applyAction st (.finishFailure msg)) ∧
      userParts (applyAction st (.finishFailure msg)) = userParts st ∧
      (applyAction st (.finishFailure msg)).inFlight = 0) ∧
    (ConvInv (applyAction st .finishAborted) ∧
      userParts (applyAction st .finishAborted) = userParts st ∧
      (applyAction st .finishAborted).inFlight = 0) := by
  obtain ⟨hids, hca, hif, haid, hstream, hrole⟩ := h
  have hidsU : ∀ (f : ConvMessage → ConvMessage), (∀ m, (f m).id = m.id) →
      ∀ m ∈ updateMessageById aid f st.messages, m.id < st.nextId := by
    intro f hfid m hm
    rcases mem_updateMessageById _ _ _ _ hm with ⟨hm0, _⟩ | ⟨m0, hm0, _, heq⟩ |
      ⟨hm0, _, heq⟩
    · exact hids m hm0
    · subst heq; rw [hfid m0]; exact hids m0 hm0
    · rw [heq, hfid m]; exact hids m hm0
  have hstreamU : ∀ (f : ConvMessage → ConvMessage), (∀ m, (f m).isStreaming = false) →
      ∀ m ∈ updateMessageById aid f st.messages, m.isStreaming = false := by
    intro f hfs m hm
    rcases mem_updateMessageById _ _ _ _ hm with ⟨hm0, hne⟩ | ⟨m0, hm0, _, heq⟩ |
      ⟨hm0, _, heq⟩
    · exact hstream m hm0 hne
    · subst heq; exact hfs m0
    · rw [heq]; exact hfs m
  have hactS : applyAction st .finishSuccess =
      { st with
        messages := updateMessageById aid
          (fun m => { m with parts := [st.accumulated], isStreaming := false }) st.messages,
        inFlight := st.inFlight - 1,
        currentAssistant := none } := by
    simp [applyAction, hca]
  have hactF : ∀ msg, applyAction st (.finishFailure msg) =
      { st with
        messages := updateMessageById aid
          (fun m => { m with parts := [msg], isStreaming := false, error := some msg })
          st.messages,
        errorMsg := some msg,
        inFlight := st.inFlight - 1,
        currentAssistant := none } := by
    intro msg
    simp [applyAction, hca]
  have hactA : applyAction st .finishAborted =
      { st with
        messages := st.messages.filter (fun m => decide (m.id ≠ aid)),
        inFlight := st.inFlight - 1,
        currentAssistant := none } := by
    simp [applyAction, hca]
  refine ⟨⟨?_, ?_, ?_⟩, ?_, ⟨?_, ?_, ?_⟩⟩
  · rw [hactS]
    exact ⟨hidsU _ (fun m => rfl), rfl, by dsimp only; omega, hstreamU _ (fun m => rfl)⟩
  · rw [hactS]
    exact userPartsM_update aid
      (fun m => { m with parts := [st.accumulated], isStreaming := false })
      (fun m => rfl) st.messages hrole
  · rw [hactS]; dsimp only; omega
  · intro msg
    refine ⟨?_, ?_, ?_⟩
    · rw [hactF]
      exact ⟨hidsU _ (fun m => rfl), rfl, by dsimp only; omega, hstreamU _ (fun m => rfl)⟩
    · rw [hactF]
      exact userPartsM_update aid
        (fun m => { m with parts := [msg], isStreaming := false, error := some msg })
        (fun m => rfl) st.messages hrole
    · rw [hactF]; dsimp only; omega
  · rw [hactA]
    refine ⟨?_, rfl, by dsimp only; omega, ?_⟩
    · intro m hm
      dsimp only at hm
      exact hids m (List.mem_of_mem_filter hm)
    · intro m hm
      dsimp only at hm
      have hpred := List.of_mem_filter hm
      have hne : m.id ≠ aid := by simpa using hpred
      exact hstream m (List.mem_of_mem_filter hm) hne
  · rw [hactA]
    exact userPartsM_filterOut aid st.messages hrole
  · rw [hactA]; dsimp only; omega

theorem runActions_append (st : ConvState) (l1 l2 : List ConvAction) :
    runActions st (l1 ++ l2) = runActions (runActions st l1) l2 := by
  unfold runActions
  exact List.foldl_append _ _ _ _

theorem runActions_single (st : ConvState) (a : ConvAction) :
    runActions st [a] = applyAction st a := rfl

theorem scanl_single_tail (st : ConvState) (a : ConvAction) :
    (List.scanl applyAction st [a]).tail = [applyAction st a] := by
  simp [List.scanl_cons, List.scanl_nil]

theorem script_run (st : ConvState) (hInv : ConvInv st) (t : String) (o : GenOutcome) :
    ConvInv (runActions st (processUserMessageActions t o)) ∧
    userParts (runActions st (processUserMessageActions t o)) =
      userParts st ++ (if strTrim t = "" then [] else [[strTrim t]]) ∧
    (∀ s2 ∈ List.scanl applyAction st (processUserMessageActions t o), s2.inFlight ≤ 1) := by
  by_cases ht : strTrim t = ""
  · refine ⟨?_, ?_, ?_⟩ <;> simp only [processUserMessageActions, if_pos ht]
    · exact hInv
    · simp [runActions]
    · intro s2 hs2
      simp only [List.scanl_nil, List.mem_singleton] at hs2
      subst hs2
      rw [hInv.2.2.1]
      omega
  · have hscript : processUserMessageActions t o =
        [.appendUser (strTrim t), .appendAssistant, .startGen] ++
          (match o with
           | .success chunks => (chunks.map ConvAction.streamChunk) ++ [.finishSuccess]
           | .failure msg => [.finishFailure msg]
           | .aborted => [.finishAborted]) := by
      simp [processUserMessageActions, ht]
    obtain ⟨hGen, hUser3⟩ := genInv_run3 st hInv (strTrim t)
    have hif0 := hInv.2.2.1
    have htr3 : ∀ s2 ∈ List.scanl applyAction st
        [ConvAction.appendUser (strTrim t), ConvAction.appendAssistant, ConvAction.startGen],
        s2.inFlight ≤ 1 := by
      intro s2 hs2
      simp only [List.scanl_cons, List.scanl_nil, List.singleton_append,
        List.cons_append, List.nil_append, List.mem_cons, List.mem_singleton,
        List.not_mem_nil, or_false] at hs2
      rcases hs2 with rfl | rfl | rfl | rfl <;> simp [applyAction, hif0]
    have hfold3 : List.foldl applyAction st
        [ConvAction.appendUser (strTrim t), ConvAction.appendAssistant, ConvAction.startGen] =
        runActions st [.appendUser (strTrim t), .appendAssistant, .startGen] := rfl
    rw [hscript]
    cases o with
    | success chunks =>
      obtain ⟨hGen4, hU4, hTr4⟩ := stream_chunks (st.nextId + 1) chunks
        (runActions st [.appendUser (strTrim t), .appendAssistant, .startGen]) hGen
      obtain ⟨⟨hInv5, hU5, _⟩, _, _⟩ := convInv_finish (st.nextId + 1)
        (runActions (runActions st [.appendUser (strTrim t), .appendAssistant, .startGen])
          (chunks.map ConvAction.streamChunk)) hGen4
      have hrunEq : runActions st
          ([ConvAction.appendUser (strTrim t), ConvAction.appendAssistant, ConvAction.startGen] ++
            ((chunks.map ConvAction.streamChunk) ++ [ConvAction.finishSuccess])) =
          applyAction (runActions
            (runActions st [.appendUser (strTrim t), .appendAssistant, .startGen])
            (chunks.map ConvAction.streamChunk)) ConvAction.finishSuccess := by
        rw [runActions_append, runActions_append, runActions_single]
      refine ⟨?_, ?_, ?_⟩
      · rw [hrunEq]; exact hInv5
      · rw [hrunEq, if_neg ht, hU5, hU4, hUser3]
      · intro s2 hs2
        rw [scanl_append_split] at hs2
        rw [List.mem_append] at hs2
        rcases hs2 with h | h
        · exact htr3 s2 h
        · have h2 := List.mem_of_mem_tail h
          rw [hfold3, scanl_append_split, List.mem_append] at h2
          rcases h2 with h3 | h3
          · exact hTr4 s2 h3
          · have h4 := List.mem_of_mem_tail h3
            have hfold4 : List.foldl applyAction
                (runActions st [ConvAction.appendUser (strTrim t), ConvAction.appendAssistant,
                  ConvAction.startGen]) (chunks.map ConvAction.streamChunk) =
                runActions (runActions st [ConvAction.appendUser (strTrim t),
                  ConvAction.appendAssistant, ConvAction.startGen])
                  (chunks.map ConvAction.streamChunk) := rfl
            rw [hfold4, List.scanl_cons, List.scanl_nil] at h4
            simp only [List.singleton_append, List.mem_cons, List.not_mem_nil,
              or_false] at h4
            rcases h4 with rfl | rfl
            · rw [hGen4.2.2.1]
            · obtain ⟨_, _, hf, _⟩ := hInv5
              rw [hf]
              omega
    | failure msg =>
      obtain ⟨_, hfail, _⟩ := convInv_finish (st.nextId + 1)
        (runActions st [.appendUser (strTrim t), .appendAssistant, .startGen]) hGen
      obtain ⟨hInv5, hU5, _⟩ := hfail msg
      have hrunEq : runActions st
          ([ConvAction.appendUser (strTrim t), ConvAction.appendAssistant, ConvAction.startGen] ++
            [ConvAction.finishFailure msg]) =
          applyAction (runActions st [.appendUser (strTrim t), .appendAssistant, .startGen])
            (ConvAction.finishFailure msg) := by
        rw [runActions_append, runActions_single]
      refine ⟨?_, ?_, ?_⟩
      · rw [hrunEq]; exact hInv5
      · rw [hrunEq, if_neg ht, hU5, hUser3]
      · intro s2 hs2
        rw [scanl_append_split, List.mem_append] at hs2
        rcases hs2 with h | h
        · exact htr3 s2 h
        · have h2 := List.mem_of_mem_tail h
          rw [hfold3, List.scanl_cons, List.scanl_nil] at h2
          simp only [List.singleton_append, List.mem_cons, List.not_mem_nil,
            or_false] at h2
          rcases h2 with rfl | rfl
          · rw [hGen.2.2.1]
          · obtain ⟨_, _, hf, _⟩ := hInv5
            rw [hf]
            omega
    | aborted =>
      obtain ⟨_, _, habort⟩ := convInv_finish (st.nextId + 1)
        (runActions st [.appendUser (strTrim t), .appendAssistant, .startGen]) hGen
      obtain ⟨hInv5, hU5, _⟩ := habort
      have hrunEq : runActions st
          ([ConvAction.appendUser (strTrim t), ConvAction.appendAssistant, ConvAction.startGen] ++
            [ConvAction.finishAborted]) =
          applyAction (runActions st [.appendUser (strTrim t), .appendAssistant, .startGen])
            ConvAction.finishAborted := by
        rw [runActions_append, runActions_single]
      refine ⟨?_, ?_, ?_⟩
      · rw [hrunEq]; exact hInv5
      · rw [hrunEq, if_neg ht, hU5, hUser3]
      · intro s2 hs2
        rw [scanl_append_split, List.mem_append] at hs2
        rcases hs2 with h | h
        · exact htr3 s2 h
        · have h2 := List.mem_of_mem_tail h
          rw [hfold3, List.scanl_cons, List.scanl_nil] at h2
          simp only [List.singleton_append, List.mem_cons, List.not_mem_nil,
            or_false] at h2
          rcases h2 with rfl | rfl
          · rw [hGen.2.2.1]
          · obtain ⟨_, _, hf, _⟩ := hInv5
            rw [hf]
            omega

theorem chain_run :
    ∀ (inputs : List (String × GenOutcome)) (st : ConvState), ConvInv st →
      ConvInv (runActions st (handleUserMessageChain inputs)) ∧
      userParts (runActions st (handleUserMessageChain inputs)) =
        userParts st ++
          (((inputs.map (fun p => strTrim p.1)).filter (fun x => decide (x ≠ ""))).map
            (fun x => [x])) ∧
      (∀ s2 ∈ List.scanl applyAction st (handleUserMessageChain inputs),
        s2.inFlight ≤ 1) := by
  intro inputs
  induction inputs with
  | nil =>
    intro st hInv
    refine ⟨hInv, by simp [handleUserMessageChain, runActions], ?_⟩
    intro s2 hs2
    simp only [handleUserMessageChain, List.flatMap_nil, List.scanl_nil,
      List.mem_singleton] at hs2
    subst hs2
    rw [hInv.2.2.1]
    omega
  | cons p rest ih =>
    intro st hInv
    have hch : handleUserMessageChain (p :: rest) =
        processUserMessageActions p.1 p.2 ++ handleUserMessageChain rest := by
      simp [handleUserMessageChain]
    obtain ⟨hI1, hU1, hT1⟩ := script_run st hInv p.1 p.2
    obtain ⟨hI2, hU2, hT2⟩ := ih (runActions st (processUserMessageActions p.1 p.2)) hI1
    refine ⟨?_, ?_, ?_⟩
    · rw [hch, runActions_append]
      exact hI2
    · rw [hch, runActions_append, hU2, hU1]
      by_cases ht : strTrim p.1 = "" <;>
        simp [ht, List.filter_cons, List.append_assoc]
    · intro s2 hs2
      rw [hch, scanl_append_split, List.mem_append] at hs2
      rcases hs2 with h | h
      · exact hT1 s2 h
      · have h2 := List.mem_of_mem_tail h
        have hfoldc : List.foldl applyAction st (processUserMessageActions p.1 p.2) =
            runActions st (processUserMessageActions p.1 p.2) := rfl
        rw [hfoldc] at h2
        exact hT2 s2 h2

theorem convInv_initial : ConvInv initialConvState := by
  refine ⟨?_, rfl, rfl, ?_⟩ <;> simp [initialConvState]

/-- Claim C1: the submission chain serializes user submissions: for any
sequence of calls with any generation outcomes, the user turns in the
final history are exactly the nonempty trimmed texts in arrival order,
the number of generation requests in flight never exceeds one at any
point of the execution trace, and no streaming assistant turn survives in
the final history (a cancelled generation removes its placeholder). -/
theorem handleUserMessage_serialized (inputs : List (String × GenOutcome)) :
    userParts (runActions initialConvState (handleUserMessageChain inputs)) =
      ((inputs.map (fun p => strTrim p.1)).filter (fun x => decide (x ≠ ""))).map
        (fun x => [x]) ∧
    (∀ s2 ∈ List.scanl applyAction initialConvState (handleUserMessageChain inputs),
      s2.inFlight ≤ 1) ∧
    (∀ m ∈ (runActions initialConvState (handleUserMessageChain inputs)).messages,
      m.isStreaming = false) := by
  obtain ⟨hI, hU, hT⟩ := chain_run inputs initialConvState convInv_initial
  refine ⟨?_, hT, hI.2.2.2⟩
  rw [hU]
  simp [userParts, userPartsM, initialConvState]


/-- Claim C1 witness: three rapid submissions A, B, C with mixed outcomes
yield exactly the user turns A, B, C in order and no streaming turn. -/
theorem handleUserMessage_serialized_witness :
    userParts (runActions initialConvState (handleUserMessageChain
      [("A", GenOutcome.success ["hi"]), ("B", GenOutcome.failure "err"),
        ("C", GenOutcome.aborted)])) = [["A"], ["B"], ["C"]] ∧
    (∀ m ∈ (runActions initialConvState (handleUserMessageChain
      [("A", GenOutcome.success ["hi"]), ("B", GenOutcome.failure "err"),
        ("C", GenOutcome.aborted)])).messages, m.isStreaming = false) := by
  have h := handleUserMessage_serialized
    [("A", GenOutcome.success ["hi"]), ("B", GenOutcome.failure "err"),
      ("C", GenOutcome.aborted)]
  refine ⟨?_, h.2.2⟩
  rw [h.1]
  rfl

/-! ## Claim theorems for transcript dispatch and the submission chain -/

/-- Claim C2: a final transcript whose trimmed text is empty produces no
user turn and clears the interim display; a final whose trimmed text
equals the previously committed utterance is discarded, and two
consecutive finals with identical trimmed text enqueue at most one
submission; each submission yields at most one user turn in the
conversation history. -/
theorem final_transcript_commit_rules :
    (∀ (p : SttResultPayload) (st : AppState), p.error = none → p.is_final = true →
      strTrim (transcriptOf p) = "" →
      (handleSttResult p st).submissions = st.submissions ∧
      (handleSttResult p st).interim = "") ∧
    (∀ (p q : SttResultPayload) (st : AppState), p.error = none → q.error = none →
      p.is_final = true → q.is_final = true →
      strTrim (transcriptOf p) = strTrim (transcriptOf q) →
      (handleSttResult q (handleSttResult p st)).submissions.length ≤
        st.submissions.length + 1) ∧
    (∀ inputs : List (String × GenOutcome),
      (userParts (runActions initialConvState (handleUserMessageChain inputs))).length ≤
        inputs.length) := by
  refine ⟨?_, ?_, ?_⟩
  · intro p st he hf h0
    rw [handleSttResult_emptyFinal p st he hf h0]
    exact ⟨rfl, rfl⟩
  · intro p q st hep heq hfp hfq htr
    by_cases hn : strTrim (transcriptOf p) = ""
    · rw [handleSttResult_emptyFinal p st hep hfp hn]
      have hg := handleSttResult_growth q { st with interim := "" }
      simpa using hg
    · by_cases hd : strTrim (transcriptOf p) = st.lastFinal
      · obtain ⟨hs1, hl1⟩ := handleSttResult_dup p st hep hfp hd
        obtain ⟨hs2, _⟩ := handleSttResult_dup q (handleSttResult p st) heq hfq
          (by rw [← htr, hd, hl1])
        rw [hs2, hs1]
        omega
      · rw [handleSttResult_commit p st hep hfp hn hd]
        obtain ⟨hs2, _⟩ := handleSttResult_dup q
          { st with lastFinal := strTrim (transcriptOf p), interim := "",
                    submissions := st.submissions ++ [strTrim (transcriptOf p)] }
          heq hfq (by rw [← htr])
        rw [hs2]
        simp
  · intro inputs
    obtain ⟨_, hU, _⟩ := chain_run inputs initialConvState convInv_initial
    rw [hU]
    have h0 : userParts initialConvState = [] := rfl
    rw [h0, List.nil_append, List.length_map]
    calc (List.filter (fun x => decide (x ≠ ""))
            (List.map (fun p => strTrim p.1) inputs)).length
        ≤ (List.map (fun p => strTrim p.1) inputs).length :=
          List.length_filter_le _ _
      _ = inputs.length := List.length_map _ _

/-- Claim C2 witness: submitting the same final transcript twice in a row
produces exactly one committed submission. -/
theorem final_transcript_commit_rules_witness :
    (handleSttResult ⟨true, 0, [⟨"hello", none⟩], none⟩
      (handleSttResult ⟨true, 0, [⟨"hello", none⟩], none⟩
        ⟨"", "", none, []⟩)).submissions.length ≤ 0 + 1 ∧
    (handleSttResult ⟨true, 0, [⟨"hello", none⟩], none⟩
      (handleSttResult ⟨true, 0, [⟨"hello", none⟩], none⟩
        ⟨"", "", none, []⟩)).submissions = ["hello"] := by
  constructor
  · have h := final_transcript_commit_rules.2.1
      ⟨true, 0, [⟨"hello", none⟩], none⟩ ⟨true, 0, [⟨"hello", none⟩], none⟩
      ⟨"", "", none, []⟩ rfl rfl rfl rfl rfl
    simpa using h
  · decide

/-- Claim C10: transcript handling consults only the head of the
alternatives list: two error-free payloads agreeing on is final and on
the head transcript are handled identically on every state (alternatives
beyond index 0 never matter); an empty alternatives list is read as an
empty transcript; the interim display is set from the head transcript of
a non-final event, and the committed utterance of a fresh final is its
trimmed head transcript. -/
theorem stt_alternatives_head_only :
    (∀ (p q : SttResultPayload) (st : AppState), p.error = q.error →
      p.is_final = q.is_final → transcriptOf p = transcriptOf q →
      handleSttResult p st = handleSttResult q st) ∧
    (∀ p : SttResultPayload, p.alternatives = [] → transcriptOf p = "") ∧
    (∀ (p : SttResultPayload) (st : AppState), p.error = none → p.is_final = false →
      transcriptOf p ≠ "" → (handleSttResult p st).interim = transcriptOf p) ∧
    (∀ (p : SttResultPayload) (st : AppState), p.error = none → p.is_final = true →
      strTrim (transcriptOf p) ≠ "" → strTrim (transcriptOf p) ≠ st.lastFinal →
      (handleSttResult p st).submissions =
        st.submissions ++ [strTrim (transcriptOf p)]) := by
  refine ⟨stt_head_only_invariance, transcriptOf_nilAlternatives,
    stt_interim_overwrite, ?_⟩
  intro p st he hf hn hnew
  rw [handleSttResult_commit p st he hf hn hnew]

/-- Claim C10 witness: a payload with one alternative and a payload with
an extra second alternative are handled identically. -/
theorem stt_alternatives_head_only_witness :
    handleSttResult ⟨false, 0, [⟨"hi", none⟩], none⟩ ⟨"", "", none, []⟩ =
      handleSttResult ⟨false, 0, [⟨"hi", none⟩, ⟨"other", some 1⟩], none⟩
        ⟨"", "", none, []⟩ ∧
    (handleSttResult ⟨false, 0, [⟨"hi", none⟩], none⟩ ⟨"", "", none, []⟩).interim =
      "hi" := by
  constructor
  · exact stt_alternatives_head_only.1
      ⟨false, 0, [⟨"hi", none⟩], none⟩
      ⟨false, 0, [⟨"hi", none⟩, ⟨"other", some 1⟩], none⟩
      ⟨"", "", none, []⟩ rfl rfl rfl
  · exact stt_alternatives_head_only.2.2.1
      ⟨false, 0, [⟨"hi", none⟩], none⟩ ⟨"", "", none, []⟩ rfl rfl (by decide)
